import Mathlib

/-!
Verification development for the jsonld-es document-rewrite engine
(src/js/jsonld.js): a shallow embedding of the value model, the context /
IRI resolver, the expander, the compactor, the context merger, the value
helpers and the URL-resolution pass, together with theorems settling the
frozen claims about the specification.

JavaScript semantics that the source depends on are modelled explicitly:
truthiness, strict equality (reference equality on objects is modelled as
"distinct values are distinct references"; no modelled call site compares an
object with itself), string coercion of property keys, and `undefined` as
the result of reading a missing property. Numbers are modelled as integers:
no claim exercises the floating-point double path (the only double-specific
branch in the source, the `%1.16e` formatting, is guarded by a decimal-point
test that an integer can never pass).
-/

set_option maxRecDepth 8192

namespace JsonLdEs

/-- JSON-like values as manipulated by jsonld.js: null, undefined, booleans,
numbers, strings, arrays, and objects with insertion-ordered string keys. -/
inductive JVal where
  | null
  | undefined
  | bool (b : Bool)
  | num (n : Int)
  | str (s : String)
  | arr (elems : List JVal)
  | obj (fields : List (String × JVal))

/-- First value stored under a key of a JS object (objects keep insertion
order; keys are unique). -/
def lookupField : List (String × JVal) → String → Option JVal
  | [], _ => none
  | (k, v) :: rest, key => if k = key then some v else lookupField rest key

/-- Key membership in a JS object's own properties. -/
def hasField : List (String × JVal) → String → Bool
  | [], _ => false
  | (k, _) :: rest, key => k = key || hasField rest key

/-- JS assignment `o[k] = v`: updating an existing key keeps its position, a
new key is appended. -/
def setField : List (String × JVal) → String → JVal → List (String × JVal)
  | [], key, v => [(key, v)]
  | (k, w) :: rest, key, v =>
      if k = key then (k, v) :: rest else (k, w) :: setField rest key v

/-- JS `delete o[k]`. -/
def delField : List (String × JVal) → String → List (String × JVal)
  | [], _ => []
  | (k, v) :: rest, key => if k = key then rest else (k, v) :: delField rest key

/-- JS truthiness: null, undefined, false, 0 and the empty string are falsy;
every object and array (including empty ones) is truthy. -/
def JVal.truthy : JVal → Bool
  | .null => false
  | .undefined => false
  | .bool b => b
  | .num n => n != 0
  | .str s => !s.isEmpty
  | .arr _ => true
  | .obj _ => true

/-- The source's _isObject: `input && input.constructor === Object`. -/
def isObjectJ : JVal → Bool
  | .obj _ => true
  | _ => false

/-- The source's _isArray: `input && input.constructor === Array` (an empty
array is truthy, so it passes). -/
def isArrayJ : JVal → Bool
  | .arr _ => true
  | _ => false

/-- The source's _isString: `input && input.constructor === String` — note
that the empty string is falsy and therefore NOT a string for this test. -/
def isStringJ : JVal → Bool
  | .str s => !s.isEmpty
  | _ => false

/-- JS strict equality `===`: value equality on primitives; objects and
arrays compare by reference, modelled as never equal (no modelled call site
compares an object reference with itself). -/
def jsStrictEq : JVal → JVal → Bool
  | .null, .null => true
  | .undefined, .undefined => true
  | .bool a, .bool b => a == b
  | .num a, .num b => a == b
  | .str a, .str b => a == b
  | _, _ => false

mutual

/-- JS ToString coercion, used for property keys (`o[x]`), string
concatenation and `'' + value`. -/
def jsToString : JVal → String
  | .null => "null"
  | .undefined => "undefined"
  | .bool b => if b then "true" else "false"
  | .num n => toString n
  | .str s => s
  | .arr xs => String.intercalate "," (jsToStringList xs)
  | .obj _ => "[object Object]"

/-- ToString of each array element (Array.prototype.toString joins with a
comma). -/
def jsToStringList : List JVal → List String
  | [] => []
  | x :: xs => jsToString x :: jsToStringList xs

end

/-- Property read `v[k]`: a missing key, or a read on a non-object, yields
undefined. (Reads on null or undefined throw in JS; every modelled call site
reads from a value already known to be truthy.) -/
def getKey (v : JVal) (k : String) : JVal :=
  match v with
  | .obj fs => (lookupField fs k).getD .undefined
  | _ => .undefined

/-- JS `k in v` on an object's own properties (call sites only apply it to
objects). -/
def hasKeyJ (v : JVal) (k : String) : Bool :=
  match v with
  | .obj fs => hasField fs k
  | _ => false

/-- JS `a || b`. -/
def jsOr (a b : JVal) : JVal :=
  if a.truthy then a else b

/-- Index of the first colon in a string (String.prototype.indexOf). -/
def colonIdxAux : List Char → Nat → Option Nat
  | [], _ => none
  | c :: rest, i => if c = ':' then some i else colonIdxAux rest (i + 1)

/-- The source's `term.indexOf(':')`, as an option. -/
def strColonIdx (s : String) : Option Nat :=
  colonIdxAux s.toList 0

/-- The character class \w of the IRI regex. -/
def isWordChar (c : Char) : Bool :=
  c.isAlphanum || c = '_'

/-- Unanchored test of /(\w+):\/\/(.+)/ (jsonld.js:1224): some occurrence of
"://" with a word character immediately before it and at least one
non-newline character after it. -/
def isAbsoluteIriChars : List Char → Bool
  | [] => false
  | c :: rest =>
      (match c, rest with
       | w, ':' :: '/' :: '/' :: d :: _ =>
           isWordChar w && d ≠ '\n' && d ≠ '\r'
       | _, _ => false)
      || isAbsoluteIriChars rest

/-- The source's _isAbsoluteIri. -/
def isAbsoluteIriJ (s : String) : Bool :=
  isAbsoluteIriChars s.toList

/-- Does the character list start with `p` followed by at least one
non-whitespace character?  Helper for the URL validation regex. -/
def startsWithThenNonSpace (p : List Char) (l : List Char) : Bool :=
  match p, l with
  | [], d :: _ => !d.isWhitespace
  | [], [] => false
  | c :: ps, d :: ds => c = d && startsWithThenNonSpace ps ds
  | _ :: _, [] => false

/-- Unanchored test of the URL validation regex at jsonld.js:1370,
/(http|https):\/\/(\w+:{0,1}\w*@)?(\S+).../: an occurrence of http:// or
https:// followed by at least one non-whitespace character (the remaining
groups are optional). -/
def urlRegexChars : List Char → Bool
  | [] => false
  | l@(_ :: rest) =>
      startsWithThenNonSpace "http://".toList l
      || startsWithThenNonSpace "https://".toList l
      || urlRegexChars rest

/-- Validation test applied to each collected @context URL. -/
def urlRegexTest (s : String) : Bool :=
  urlRegexChars s.toList

/-- Lexicographic order on character lists by code unit, the default
Array.prototype.sort comparison for strings. -/
def charListLe : List Char → List Char → Bool
  | [], _ => true
  | _ :: _, [] => false
  | a :: as, b :: bs =>
      if a.val.toNat < b.val.toNat then true
      else if b.val.toNat < a.val.toNat then false
      else charListLe as bs

/-- String order used by the cloner's key sort. -/
def strLeJ (a b : String) : Bool :=
  charListLe a.toList b.toList

/-- Insertion into a key-sorted field list (keys are unique, so ties cannot
occur). -/
def insertFieldSorted (p : String × JVal) : List (String × JVal) → List (String × JVal)
  | [] => [p]
  | q :: rest => if strLeJ p.1 q.1 then p :: q :: rest else q :: insertFieldSorted p rest

/-- Sort an object's fields by key, as `Object.keys(value).sort()` does in
the cloner. -/
def sortFields (fs : List (String × JVal)) : List (String × JVal) :=
  fs.foldr insertFieldSorted []

mutual

/-- The source's _clone (jsonld.js:1236-1258): objects are rebuilt with
sorted keys, arrays elementwise, primitives unchanged. (The source sorts the
keys and then clones each value; cloning each value and then sorting yields
the same object, since cloning does not change keys.) -/
def jclone : JVal → JVal
  | .obj fs => .obj (sortFields (jcloneFields fs))
  | .arr xs => .arr (jcloneArr xs)
  | .null => .null
  | .undefined => .undefined
  | .bool b => .bool b
  | .num n => .num n
  | .str s => .str s

/-- Clone of each array element. -/
def jcloneArr : List JVal → List JVal
  | [] => []
  | x :: xs => jclone x :: jcloneArr xs

/-- Clone of each field value. -/
def jcloneFields : List (String × JVal) → List (String × JVal)
  | [] => []
  | (k, v) :: fs => (k, jclone v) :: jcloneFields fs

end

/-- Errors that escape the modelled code: the JsonLdError kinds of the
source, plus the native JS errors its slips raise (TypeError for calling or
dereferencing undefined, ReferenceError for reading an undeclared name), and
an out-of-fuel marker for the recursion bound of the embedding. -/
inductive JErr where
  | syntaxErr
  | cyclicalContext
  | invalidContext
  | contextUrl (errs : List JErr)
  | invalidUrl
  | compactErr
  | notImplemented
  | typeErr
  | referenceErr
  | outOfFuel

/-- The identity keyword table _getKeywords starts from (jsonld.js:1032-1041),
in the source's literal order. -/
def keywordBase : List (String × String) :=
  [("@container", "@container"), ("@graph", "@graph"), ("@id", "@id"),
   ("@language", "@language"), ("@list", "@list"), ("@set", "@set"),
   ("@type", "@type"), ("@value", "@value")]

/-- Lookup in a string-to-string table (insertion-ordered, unique keys). -/
def lookupAlias : List (String × String) → String → Option String
  | [], _ => none
  | (k, v) :: rest, key => if k = key then some v else lookupAlias rest key

/-- Assignment in a string-to-string table, with JS object semantics. -/
def setAlias : List (String × String) → String → String → List (String × String)
  | [], key, v => [(key, v)]
  | (k, w) :: rest, key, v =>
      if k = key then (k, v) :: rest else (k, w) :: setAlias rest key v

/-- Key membership in a string-to-string table. -/
def hasAlias : List (String × String) → String → Bool
  | [], _ => false
  | (k, _) :: rest, key => k = key || hasAlias rest key

/-- First key of the table whose value equals `s` (the expander's reverse
scan over the keyword table, jsonld.js:993-998). -/
def revLookupAlias : List (String × String) → String → Option String
  | [], _ => none
  | (k, v) :: rest, s => if v = s then some k else revLookupAlias rest s

/-- The source's _getKeywords (jsonld.js:1031-1059): start from the identity
table; every context entry whose (truthy) string value is a built-in keyword
registers keyword → user key; the aliases then overwrite the identity
entries. Contexts are always maps at the modelled call sites. -/
def getKeywords (ctx : JVal) : List (String × String) :=
  match ctx with
  | .obj fs =>
      let aliases := fs.foldl
        (fun acc kv =>
          match kv.2 with
          | .str s =>
              if !s.isEmpty && hasAlias keywordBase s then setAlias acc s kv.1 else acc
          | _ => acc)
        []
      aliases.foldl (fun acc kv => setAlias acc kv.1 kv.2) keywordBase
  | _ => keywordBase

/-- The source's _isFrameKeyword (jsonld.js:1068-1074). -/
def isFrameKeyword (key : String) : Bool :=
  key = "@embed" || key = "@explicit" || key = "@default" || key = "@omitDefault"

/-- Length of an array value (only read after an _isArray check). -/
def arrLen : JVal → Nat
  | .arr xs => xs.length
  | _ => 0

/-- The source's _isSubject (jsonld.js:1160-1174): an object without @value,
@set or @list that has more than one key or no @id. -/
def isSubjectJ (value : JVal) : Bool :=
  match value with
  | .obj fs =>
      if !(hasField fs "@value" || hasField fs "@set" || hasField fs "@list") then
        fs.length > 1 || !hasField fs "@id"
      else false
  | _ => false

/-- The source's _isSetValue (jsonld.js:1183-1194). -/
def isSetValueJ (value : JVal) : Bool :=
  isObjectJ value && hasKeyJ value "@set"

/-- The source's _isListValue (jsonld.js:1203-1214). -/
def isListValueJ (value : JVal) : Bool :=
  isObjectJ value && hasKeyJ value "@list"

/-- The source's jsonld.hasProperty (jsonld.js:297-304). -/
def hasPropertyJ (subject : JVal) (property : String) : Bool :=
  if hasKeyJ subject property then
    let value := getKey subject property
    !isArrayJ value || 0 < arrLen value
  else false

/-- The source's jsonld.hasValue (jsonld.js:315-328). When the stored value
is an array, the source calls the bare name `indexOf(val, value)`, which is
not declared anywhere in the file, so a ReferenceError escapes. -/
def hasValueJ (subject : JVal) (property : String) (value : JVal) : Except JErr Bool :=
  if hasPropertyJ subject property then
    let val := getKey subject property
    if isArrayJ val then throw .referenceErr
    else if !isArrayJ value then pure (jsStrictEq val value)
    else pure false
  else pure false

/-- The source's jsonld.addValue (jsonld.js:340-360). Note jsonld.js:344
assigns `var hasValue = !jsonld.hasValue(...)`: the local flag is the
NEGATION of presence, so the push at line 352-354 fires exactly when the
value is already present. -/
def addValueJ (subject : JVal) (property : String) (value : JVal)
    (propertyIsArray : Bool) : Except JErr JVal :=
  if hasKeyJ subject property then do
    let present ← hasValueJ subject property value
    let hasValue := !present
    let cur := getKey subject property
    let subject :=
      if !isArrayJ cur && (!hasValue || propertyIsArray) then
        match subject with
        | .obj fs => JVal.obj (setField fs property (.arr [cur]))
        | v => v
      else subject
    if !hasValue then
      match getKey subject property with
      | .arr xs =>
          match subject with
          | .obj fs => pure (JVal.obj (setField fs property (.arr (xs ++ [value]))))
          | v => pure v
      | _ => throw .typeErr
    else
      pure subject
  else
    match subject with
    | .obj fs =>
        pure (JVal.obj (setField fs property (if propertyIsArray then .arr [value] else value)))
    | v => pure v

/-- The source's jsonld.getValues (jsonld.js:370-376):
`rval = subject[property] || []`, then wrap non-arrays in a singleton. -/
def getValuesJ (subject : JVal) (property : String) : JVal :=
  let rval := jsOr (getKey subject property) (.arr [])
  if !isArrayJ rval then .arr [rval] else rval

/-- Property key for a property that may be null (JS coerces `null` used as
a key or as `x in ctx` to the string "null"). -/
def propKey : Option String → JVal
  | some s => .str s
  | none => .null

/-- The calls `jsonld.getContextValue(key)` at jsonld.js:579 and :684 pass a
single argument: inside getContextValue, ctx is then the key string and key
and type are both undefined, so the undefined-type branch computes
ctx[key] || null on a string receiver with an undefined key, which is null
for every key. -/
def getContextValueMissingArgs (key : String) : JVal :=
  jsOr (getKey (.str key) (jsToString JVal.undefined)) .null

/-- Fields of an object value (empty for non-objects: a for-in loop over a
primitive visits no term keys). -/
def fieldsOf : JVal → List (String × JVal)
  | .obj fs => fs
  | _ => []

/-- Keys of an object value, in insertion order. -/
def keysOf (v : JVal) : List String :=
  (fieldsOf v).map Prod.fst

mutual

/-- The source's jsonld.getContextValue (jsonld.js:427-458). With an
undefined type it returns ctx[key] || null. Otherwise, for a key present in
the context: an object entry yields its `type` member (null when absent); a
truthy string entry yields itself only when type is '@id'; any other entry
reaches the throw at line 444, where building the details object reads the
undeclared name ctx2, so a ReferenceError escapes instead of the
JsonLdError. When requested (the default), the result is term-expanded. -/
def getContextValue (fuel : Nat) (ctx : JVal) (key : JVal) (ty : Option String)
    (expand : Bool) : Except JErr JVal :=
  match fuel with
  | 0 => throw .outOfFuel
  | fuel + 1 =>
    match ty with
    | none => pure (jsOr (getKey ctx (jsToString key)) .null)
    | some t =>
      if hasKeyJ ctx (jsToString key) then do
        let entry := getKey ctx (jsToString key)
        let rval ←
          if isObjectJ entry then
            pure (if hasKeyJ entry t then getKey entry t else JVal.null)
          else if t = "@id" && isStringJ entry then
            pure entry
          else
            throw JErr.referenceErr
        if expand then expandTermFull fuel ctx rval else pure rval
      else
        pure .null

/-- One pass of the source's _expandTerm with deep set (jsonld.js:969-999):
a colon splits the term into a potential prefix (expanded through the
context when the prefix is a key) and suffix; a context key is looked up
without further expansion; otherwise the keyword table is scanned for a key
whose alias equals the term. Calling it on a non-string (e.g. null) raises
a TypeError from term.indexOf. -/
def expandTermBody (fuel : Nat) (ctx : JVal) (term : JVal) : Except JErr JVal :=
  match fuel with
  | 0 => throw .outOfFuel
  | fuel + 1 =>
    match term with
    | .str s =>
      match strColonIdx s with
      | some idx =>
          let pfx := s.take idx
          if hasKeyJ ctx pfx then do
            let iri ← getContextValue fuel ctx (.str pfx) (some "@id") true
            pure (.str (jsToString iri ++ s.drop (idx + 1)))
          else
            pure (.str s)
      | none =>
          if hasKeyJ ctx s then
            getContextValue fuel ctx (.str s) (some "@id") false
          else
            match revLookupAlias (getKeywords ctx) s with
            | some k => pure (.str k)
            | none => pure (.str s)
    | _ => throw .typeErr

/-- The stabilization loop of _expandTerm (jsonld.js:1002-1019). The source
assigns `recurse = rval; recurse = _expandTerm(ctx, recurse, true)` and
never updates rval inside the loop, so the loop condition always compares
the newest value against the first result, and the visited-set check sees
the fixed rval again on every iteration after the first. -/
def expandTermLoop (fuel : Nat) (ctx : JVal) (cycles : List String) (rval : JVal)
    (recurse : Option JVal) : Except JErr JVal :=
  match fuel with
  | 0 => throw .outOfFuel
  | fuel + 1 =>
    let continueLoop :=
      match recurse with
      | none => true
      | some r => !jsStrictEq r rval
    if continueLoop then
      if cycles.contains (jsToString rval) then throw .cyclicalContext
      else do
        let r ← expandTermBody fuel ctx rval
        expandTermLoop fuel ctx (cycles ++ [jsToString rval]) rval (some r)
    else
      pure rval

/-- The source's _expandTerm with deep undefined: one pass followed by the
stabilization loop. -/
def expandTermFull (fuel : Nat) (ctx : JVal) (term : JVal) : Except JErr JVal :=
  match fuel with
  | 0 => throw .outOfFuel
  | fuel + 1 => do
    let rval ← expandTermBody fuel ctx term
    expandTermLoop fuel ctx [] rval none

/-- Term scan of _compactIri (jsonld.js:922-930): the first non-@ context
key whose expanded @id strictly equals the IRI. -/
def compactIriTermScan (fuel : Nat) (ctx iri : JVal) (fs : List (String × JVal)) :
    Except JErr (Option String) :=
  match fuel with
  | 0 => throw .outOfFuel
  | fuel + 1 =>
    match fs with
    | [] => pure none
    | (k, _) :: rest =>
      if 0 < k.length && k.front ≠ '@' then do
        let v ← getContextValue fuel ctx (.str k) (some "@id") true
        if jsStrictEq iri v then pure (some k)
        else compactIriTermScan fuel ctx iri rest
      else compactIriTermScan fuel ctx iri rest

/-- Prefix scan of _compactIri (jsonld.js:939-952): the first non-@ context
key whose expanded @id is a strict prefix of the IRI yields key:suffix;
otherwise the IRI is returned unchanged. iri.indexOf on a non-string IRI
raises a TypeError; the search string is ToString-coerced as in JS. -/
def compactIriPfxScan (fuel : Nat) (ctx iri : JVal) (fs : List (String × JVal)) :
    Except JErr JVal :=
  match fuel with
  | 0 => throw .outOfFuel
  | fuel + 1 =>
    match fs with
    | [] => pure iri
    | (k, _) :: rest =>
      if 0 < k.length && k.front ≠ '@' then do
        let ctxIri ← getContextValue fuel ctx (.str k) (some "@id") true
        if !jsStrictEq ctxIri .null then
          match iri with
          | .str s =>
              let t := jsToString ctxIri
              if t.isPrefixOf s && t.length < s.length then
                pure (.str (k ++ ":" ++ s.drop t.length))
              else
                compactIriPfxScan fuel ctx iri rest
          | _ => throw .typeErr
        else
          compactIriPfxScan fuel ctx iri rest
      else compactIriPfxScan fuel ctx iri rest

/-- The source's _compactIri (jsonld.js:919-956): term scan, then keyword
alias, then prefix scan, otherwise the IRI unchanged. -/
def compactIriJ (fuel : Nat) (ctx iri : JVal) : Except JErr JVal :=
  match fuel with
  | 0 => throw .outOfFuel
  | fuel + 1 => do
    let hit ← compactIriTermScan fuel ctx iri (fieldsOf ctx)
    match hit with
    | some k => pure (.str k)
    | none =>
      let kw := getKeywords ctx
      if hasAlias kw (jsToString iri) then
        pure (.str ((lookupAlias kw (jsToString iri)).getD "undefined"))
      else
        compactIriPfxScan fuel ctx iri (fieldsOf ctx)

/-- The source's Processor#expandValue (jsonld.js:808-842). The double
special case (type null and a value printing with a decimal point) cannot
fire on integer-modelled numbers. -/
def pExpandValue (fuel : Nat) (ctx : JVal) (property : Option String) (value : JVal) :
    Except JErr JVal :=
  match fuel with
  | 0 => throw .outOfFuel
  | fuel + 1 => do
    let prop ← expandTermFull fuel ctx (propKey property)
    if jsStrictEq prop (.str "@id") || jsStrictEq prop (.str "@type") then
      expandTermFull fuel ctx value
    else do
      let prop2 ← compactIriJ fuel ctx prop
      let ty ← getContextValue fuel ctx prop2 (some "@type") true
      if jsStrictEq ty (.str "@id") then do
        let e ← expandTermFull fuel ctx value
        pure (.obj [("@id", e)])
      else if !jsStrictEq ty .null then
        pure (.obj [("@type", ty), ("@value", .str (jsToString value))])
      else
        pure value

/-- Keyword replacement loop of Processor#compactValue (jsonld.js:881-891):
each key of the literal is replaced by keywords[key] (undefined, coerced to
the key "undefined", when the key is not a keyword), compacting the inner
IRI for @id and @type. -/
def compactValueKeywordFold (fuel : Nat) (ctx : JVal) (kw : List (String × String))
    (rval : JVal) (fs : List (String × JVal)) : Except JErr JVal :=
  match fuel with
  | 0 => throw .outOfFuel
  | fuel + 1 =>
    match fs with
    | [] => pure rval
    | (k, v) :: rest => do
      let val ← if k = "@id" || k = "@type" then compactIriJ fuel ctx v else pure v
      let newKey := (lookupAlias kw k).getD (jsToString JVal.undefined)
      match rval with
      | .obj rfs =>
          compactValueKeywordFold fuel ctx kw (.obj (setField rfs newKey val)) rest
      | r => compactValueKeywordFold fuel ctx kw r rest

/-- The source's Processor#compactValue (jsonld.js:854-909). -/
def pCompactValue (fuel : Nat) (ctx : JVal) (property : Option String) (value : JVal) :
    Except JErr JVal :=
  match fuel with
  | 0 => throw .outOfFuel
  | fuel + 1 =>
    if !isObjectJ value then pure value
    else do
      let prop ← expandTermFull fuel ctx (propKey property)
      let ty ←
        if jsStrictEq prop (.str "@id") || jsStrictEq prop (.str "@type") then
          pure (JVal.str "@id")
        else do
          let prop2 ← compactIriJ fuel ctx prop
          getContextValue fuel ctx prop2 (some "@type") true
      if jsStrictEq ty .null then
        compactValueKeywordFold fuel ctx (getKeywords ctx) (.obj []) (fieldsOf value)
      else if hasKeyJ value "@language" then
        throw .compactErr
      else if jsStrictEq ty (.str "@id") then
        compactIriJ fuel ctx (getKey value "@value")
      else
        pure (getKey value "@value")

/-- Element loop of the expander's array/@list branch (jsonld.js:648-657):
nested arrays are a syntax error, every element is expanded under the same
property. -/
def expandElems (fuel : Nat) (ctx : JVal) (property : Option String) (xs : List JVal) :
    Except JErr (List JVal) :=
  match fuel with
  | 0 => throw .outOfFuel
  | fuel + 1 =>
    match xs with
    | [] => pure []
    | x :: rest =>
      if isArrayJ x then throw .syntaxErr
      else do
        let v ← pExpand fuel ctx property x
        let vs ← expandElems fuel ctx property rest
        pure (v :: vs)

/-- Tail of the expander's array/@list branch (jsonld.js:648-665): expand
the elements, read the property's @container, and wrap in {@list: ...} when
isList is set or the container is @list. -/
def expandArrayPart (fuel : Nat) (ctx : JVal) (property : Option String)
    (isListB : Bool) (value : JVal) : Except JErr JVal :=
  match fuel with
  | 0 => throw .outOfFuel
  | fuel + 1 =>
    match value with
    | .arr xs => do
        let elems ← expandElems fuel ctx property xs
        let container ← getContextValue fuel ctx (propKey property) (some "@container") true
        if isListB || jsStrictEq container (.str "@list") then
          pure (.obj [("@list", .arr elems)])
        else
          pure (.arr elems)
    | _ => throw .syntaxErr

/-- Key loop of the expander's subject branch (jsonld.js:676-697): frame
keywords are copied as always-arrays; @context is skipped; the drop test
calls jsonld.getContextValue with a single argument (always null), so every
key that is not an absolute IRI is dropped; surviving keys are term-expanded
and their values recursively expanded, non-null results added as
always-arrays. -/
def expandSubjectFold (fuel : Nat) (ctx value rval : JVal)
    (fs : List (String × JVal)) : Except JErr JVal :=
  match fuel with
  | 0 => throw .outOfFuel
  | fuel + 1 =>
    match fs with
    | [] => pure rval
    | (k, _) :: rest =>
      if isFrameKeyword k then do
        let rv ← addValueJ rval k (getKey value k) true
        expandSubjectFold fuel ctx value rv rest
      else if k ≠ "@context" then
        if !(getContextValueMissingArgs k).truthy && !isAbsoluteIriJ k then
          expandSubjectFold fuel ctx value rval rest
        else do
          let prop ← expandTermFull fuel ctx (.str k)
          let v ← pExpand fuel ctx (some k) (getKey value k)
          if jsStrictEq v .null then
            expandSubjectFold fuel ctx value rval rest
          else do
            let rv ← addValueJ rval (jsToString prop) v true
            expandSubjectFold fuel ctx value rv rest
      else
        expandSubjectFold fuel ctx value rval rest

/-- The source's Processor#expand (jsonld.js:616-708). Line 629 reads
`var isList = value`, so every truthy value is treated as @list-eligible:
the branch at 630 is taken for any truthy value, value['@list'] is read
(undefined on plain arrays, subjects, strings, ...), and a non-array,
non-null result is a syntax error. A subject carrying @context calls
this.merge (jsonld.js:672), a method Processor does not have, raising a
TypeError. -/
def pExpand (fuel : Nat) (ctx : JVal) (property : Option String) (value : JVal) :
    Except JErr JVal :=
  match fuel with
  | 0 => throw .outOfFuel
  | fuel + 1 =>
    if jsStrictEq value .null then pure .null
    else if property = none && isStringJ value then
      expandTermFull fuel ctx value
    else
      let isListB := value.truthy
      if isArrayJ value || isListB then
        if isListB then
          let inner := getKey value "@list"
          if jsStrictEq inner .null then pure .null
          else if !isArrayJ inner then throw .syntaxErr
          else expandArrayPart fuel ctx property isListB inner
        else
          expandArrayPart fuel ctx property isListB value
      else if isSubjectJ value then
        if hasKeyJ value "@context" then
          throw .typeErr
        else
          expandSubjectFold fuel ctx value (.obj []) (fieldsOf value)
      else if isSetValueJ value then
        pExpand fuel ctx property (getKey value "@set")
      else
        pExpandValue fuel ctx property value

/-- Element loop of the compactor's array/@list branch (jsonld.js:544-553). -/
def compactElems (fuel : Nat) (ctx : JVal) (property : Option String) (xs : List JVal) :
    Except JErr (List JVal) :=
  match fuel with
  | 0 => throw .outOfFuel
  | fuel + 1 =>
    match xs with
    | [] => pure []
    | x :: rest =>
      if isArrayJ x then throw .syntaxErr
      else do
        let v ← pCompact fuel ctx property x
        let vs ← compactElems fuel ctx property rest
        pure (v :: vs)

/-- Tail of the compactor's array/@list branch (jsonld.js:544-561): compact
the elements and rewrap in {@list: ...} when the input was a @list and the
property's @container is not @list. -/
def compactArrayPart (fuel : Nat) (ctx : JVal) (property : Option String)
    (isListB : Bool) (value : JVal) : Except JErr JVal :=
  match fuel with
  | 0 => throw .outOfFuel
  | fuel + 1 =>
    match value with
    | .arr xs => do
        let elems ← compactElems fuel ctx property xs
        let container ← getContextValue fuel ctx (propKey property) (some "@container") true
        if isListB && !jsStrictEq container (.str "@list") then
          pure (.obj [("@list", .arr elems)])
        else
          pure (.arr elems)
    | _ => throw .syntaxErr

/-- Key loop of the compactor's subject branch (jsonld.js:575-594): @context
is skipped; the drop test calls jsonld.getContextValue with a single
argument (always null), so every key that is not an absolute IRI is
dropped; surviving keys are IRI-compacted, their values recursively
compacted, and added with array semantics when the compacted property's
@container is @set or @list. -/
def compactSubjectFold (fuel : Nat) (ctx value rval : JVal)
    (fs : List (String × JVal)) : Except JErr JVal :=
  match fuel with
  | 0 => throw .outOfFuel
  | fuel + 1 =>
    match fs with
    | [] => pure rval
    | (k, _) :: rest =>
      if k ≠ "@context" then
        if !(getContextValueMissingArgs k).truthy && !isAbsoluteIriJ k then
          compactSubjectFold fuel ctx value rval rest
        else do
          let p ← compactIriJ fuel ctx (.str k)
          let v ← pCompact fuel ctx (some k) (getKey value k)
          let container ← getContextValue fuel ctx p (some "@container") true
          let isArrB := jsStrictEq container (.str "@set") || jsStrictEq container (.str "@list")
          let rv ← addValueJ rval (jsToString p) v isArrB
          compactSubjectFold fuel ctx value rv rest
      else
        compactSubjectFold fuel ctx value rval rest

/-- The source's Processor#compact (jsonld.js:518-605). The optimize
parameter is only forwarded, never read, and is omitted. -/
def pCompact (fuel : Nat) (ctx : JVal) (property : Option String) (value : JVal) :
    Except JErr JVal :=
  match fuel with
  | 0 => throw .outOfFuel
  | fuel + 1 =>
    if jsStrictEq value .null then pure .null
    else
      let isListB := isListValueJ value
      if isArrayJ value || isListB then
        if isListB then
          let inner := getKey value "@list"
          if jsStrictEq inner .null then pure .null
          else if !isArrayJ inner then throw .syntaxErr
          else compactArrayPart fuel ctx property isListB inner
        else
          compactArrayPart fuel ctx property isListB value
      else if isObjectJ value && hasKeyJ value "@graph" then do
        let g := (lookupAlias (getKeywords ctx) "@graph").getD "undefined"
        let v ← pCompact fuel ctx property (getKey value "@graph")
        pure (.obj [(g, v)])
      else if isSubjectJ value then
        compactSubjectFold fuel ctx value (.obj []) (fieldsOf value)
      else if isSetValueJ value then
        pCompact fuel ctx property (getKey value "@set")
      else
        pCompactValue fuel ctx property value

/-- Inner scan of Processor#mergeContexts (jsonld.js:780-787): delete the
FIRST key of rval whose expanded @id equals newIri, then break. -/
def mergeScanDelete (fuel : Nat) (rval newIri : JVal) (ks : List String) :
    Except JErr JVal :=
  match fuel with
  | 0 => throw .outOfFuel
  | fuel + 1 =>
    match ks with
    | [] => pure rval
    | mk :: rest => do
      let v ← getContextValue fuel rval (.str mk) (some "@id") true
      if jsStrictEq newIri v then
        match rval with
        | .obj fs => pure (.obj (delField fs mk))
        | r => pure r
      else
        mergeScanDelete fuel rval newIri rest

/-- Outer IRI-replacement loop of Processor#mergeContexts (jsonld.js:772-787):
for every key of ctx2 that defines an @id, scan rval and remove the first
matching entry. -/
def mergeIriReplaceFold (fuel : Nat) (ctx2 rval : JVal)
    (fs : List (String × JVal)) : Except JErr JVal :=
  match fuel with
  | 0 => throw .outOfFuel
  | fuel + 1 =>
    match fs with
    | [] => pure rval
    | (k, _) :: rest => do
      let newIri ← getContextValue fuel ctx2 (.str k) (some "@id") true
      if jsStrictEq newIri .null then
        mergeIriReplaceFold fuel ctx2 rval rest
      else do
        let rv ← mergeScanDelete fuel rval newIri (keysOf rval)
        mergeIriReplaceFold fuel ctx2 rv rest

/-- Fold for an array ctx2 (jsonld.js:763-768): merge each element in
order. -/
def mergeArrayFold (fuel : Nat) (rval : JVal) (xs : List JVal) : Except JErr JVal :=
  match fuel with
  | 0 => throw .outOfFuel
  | fuel + 1 =>
    match xs with
    | [] => pure rval
    | x :: rest => do
      let rv ← pMergeContexts fuel rval x
      mergeArrayFold fuel rv rest

/-- The source's Processor#mergeContexts (jsonld.js:754-796): flatten an
array ctx1, clone it, apply IRI replacement for ctx2's keys, then overlay
ctx2's entries. -/
def pMergeContexts (fuel : Nat) (ctx1 ctx2 : JVal) : Except JErr JVal :=
  match fuel with
  | 0 => throw .outOfFuel
  | fuel + 1 => do
    let c1 ← if isArrayJ ctx1 then pMergeContexts fuel (.obj []) ctx1 else pure ctx1
    let rval := jclone c1
    if isArrayJ ctx2 then
      match ctx2 with
      | .arr xs => mergeArrayFold fuel rval xs
      | _ => pure rval
    else
      match ctx2 with
      | .obj fs => do
        let rv ← mergeIriReplaceFold fuel ctx2 rval fs
        match rv with
        | .obj rfs => pure (.obj (fs.foldl (fun acc kv => setField acc kv.1 kv.2) rfs))
        | r => pure r
      | _ => pure rval

end

/-- Add a URL to the discovered set (the urls object keys: unique, insertion
order). -/
def addUniqueUrl (acc : List String) (s : String) : List String :=
  if acc.contains s then acc else acc ++ [s]

mutual

/-- Discovery traversal of _resolveUrls (findUrls with replace false,
jsonld.js:1299-1343): arrays are walked elementwise; in an object only the
@context key is inspected (other values are skipped by the `continue`), and
a string @context, or each string element of an array @context, is
collected. The empty string fails the _isString test and is skipped. -/
def collectUrls : JVal → List String → List String
  | .arr xs, acc => collectUrlsArr xs acc
  | .obj fs, acc =>
      match lookupField fs "@context" with
      | some (.arr cs) =>
          cs.foldl
            (fun a c =>
              match c with
              | .str s => if s.isEmpty then a else addUniqueUrl a s
              | _ => a)
            acc
      | some (.str s) => if s.isEmpty then acc else addUniqueUrl acc s
      | _ => acc
  | _, acc => acc

/-- Discovery over the elements of an array. -/
def collectUrlsArr : List JVal → List String → List String
  | [], acc => acc
  | x :: xs, acc => collectUrlsArr xs (collectUrls x acc)

end

/-- Substitution applied to a single @context entry during the replacement
traversal (findUrls with replace true): string entries, and string elements
of an array entry, are replaced by the resolved context from the table. -/
def replaceCtxUrls (table : List (String × JVal)) (ctx : JVal) : JVal :=
  match ctx with
  | .arr cs =>
      .arr (cs.map (fun c =>
        match c with
        | .str s => if s.isEmpty then .str s else (lookupField table s).getD .undefined
        | c => c))
  | .str s => if s.isEmpty then .str s else (lookupField table s).getD .undefined
  | c => c

mutual

/-- Replacement traversal of _resolveUrls: the same walk as discovery, with
each collected string swapped for its resolved context. -/
def replaceUrls (table : List (String × JVal)) : JVal → JVal
  | .arr xs => .arr (replaceUrlsArr table xs)
  | .obj fs =>
      .obj (fs.map (fun kv =>
        if kv.1 = "@context" then (kv.1, replaceCtxUrls table kv.2) else kv))
  | v => v

/-- Replacement over the elements of an array. -/
def replaceUrlsArr (table : List (String × JVal)) : List JVal → List JVal
  | [] => []
  | x :: xs => replaceUrls table x :: replaceUrlsArr table xs

end

/-- One fetch of the fetch phase (the resolver callback body,
jsonld.js:1379-1404): string results are parsed as JSON (parsing is an
injected capability: the spec lists JSON parsing as a non-goal), non-map
results are an InvalidUrl error, and the stored table value is the fetched
document's @context (or an empty map). -/
def resolveOneUrl (parse : String → Except JErr JVal)
    (resolver : String → Except JErr JVal) (url : String) : Except JErr JVal := do
  let ctx0 ← resolver url
  let ctx1 ←
    if isStringJ ctx0 then
      match ctx0 with
      | .str s => parse s
      | c => pure c
    else pure ctx0
  if !isObjectJ ctx1 then throw .invalidUrl
  else pure (jsOr (getKey ctx1 "@context") (.obj []))

/-- The fetch loop of _resolveUrls (jsonld.js:1368-1414), with fetches
settling synchronously in discovery order. Each URL decrements count once:
a malformed URL only records an InvalidUrl error and continues — the
completion check lives inside the resolver callback, so it is never reached
from the malformed branch. A valid URL runs its callback, and when count
reaches zero there (i.e. on the last URL, when that URL is valid), finished
fires: replacement plus success when no error was recorded, otherwise a
single aggregated ContextUrlError. The result is the value passed to the
_resolveUrls callback, or none when the callback is never invoked. -/
def resolveLoop (parse resolver : String → Except JErr JVal) (input : JVal)
    (errors : List JErr) (table : List (String × JVal)) :
    List String → Option (Except JErr JVal)
  | [] => none
  | u :: rest =>
      if !urlRegexTest u then
        resolveLoop parse resolver input (errors ++ [.invalidUrl]) table rest
      else
        let st :=
          match resolveOneUrl parse resolver u with
          | .error e => (errors ++ [e], table)
          | .ok c => (errors, table ++ [(u, c)])
        if rest.isEmpty then
          if st.1.isEmpty then some (.ok (replaceUrls st.2 input))
          else some (.error (.contextUrl st.1))
        else
          resolveLoop parse resolver input st.1 st.2 rest

/-- The source's _resolveUrls (jsonld.js:1293-1415) as declared — three
parameters, with a working callback — applied to a synchronous resolver:
discovery, then the fetch loop; with no URLs, finished fires immediately
with the input. The result is the single value delivered to the callback,
or none when the callback is never invoked. -/
def resolveUrlsRun (parse resolver : String → Except JErr JVal) (input : JVal) :
    Option (Except JErr JVal) :=
  let urls := collectUrls input []
  if urls.isEmpty then some (.ok input)
  else resolveLoop parse resolver input [] [] urls

/-- Error values handed to a completion callback: a JsonLdError of a given
kind, or a raw non-error value passed in the err position. -/
inductive JsCbErr where
  | jsonLd (kind : JErr)
  | rawVal (v : JVal)

/-- One invocation of a public operation's completion callback. -/
inductive CbCall where
  | withErr (e : JsCbErr)
  | withOk (v : JVal)

/-- The source's jsonld.expand (jsonld.js:107-117): it clones the input and
calls _resolveUrls(input, cont) — the continuation lands in the RESOLVER
parameter and the callback parameter is undefined. With no @context URLs,
count is zero and finished() runs callback(null, input) on the undefined
callback: a TypeError escapes and the user callback is never invoked. With
URLs, each valid URL invokes resolver(url, cb), i.e. the continuation with
err = the URL string, which forwards that string to the user callback and
returns; no completion is ever signalled afterwards (and malformed URLs are
skipped silently). The result is the list of user-callback invocations plus
any escaping exception. -/
def jsonldExpandRun (input : JVal) : List CbCall × Option JErr :=
  let input := jclone input
  let urls := collectUrls input []
  if urls.isEmpty then
    ([], some .typeErr)
  else
    ((urls.filter urlRegexTest).map (fun u => CbCall.withErr (.rawVal (.str u))), none)

/-- The source's jsonld.compact called with three arguments
(input, ctx, callback), so optimize is false (jsonld.js:23-99). A null input
runs `return callback(null, null)` at line 26, before the hoisted callback
variable is assigned: a TypeError escapes. Otherwise jsonld.expand runs
first; its continuation is only ever entered with a truthy err (see
jsonldExpandRun), which it wraps in a CompactError for the user callback;
an exception escaping jsonld.expand propagates. The ctx argument is never
consulted, because control never reaches the merge and compaction steps. -/
def jsonldCompactRun (input _ctx : JVal) : List CbCall × Option JErr :=
  if jsStrictEq input .null then
    ([], some .typeErr)
  else
    let r := jsonldExpandRun input
    (r.1.map (fun _ => CbCall.withErr (.jsonLd .compactErr)), r.2)

/-- The behaviour claim C10 ascribes to getValues, stated from the claim's
words: the stored array itself when the stored value is an array, a
singleton when it is a truthy non-array, and the empty array when the
property is absent or its stored value is falsy. -/
def getValuesClaim (fs : List (String × JVal)) (p : String) : JVal :=
  match lookupField fs p with
  | none => .arr []
  | some v =>
      if v.truthy then
        match v with
        | .arr xs => .arr xs
        | w => .arr [w]
      else .arr []

/-- The E1 document of the specification:
{"@context":{"name":"http://x/name"},"name":"Bob"}. -/
def e1Input : JVal :=
  .obj [("@context", .obj [("name", .str "http://x/name")]), ("name", .str "Bob")]

/-- C1: the claimed round-trip expand(compact(expand(x), c)) = expand(x)
cannot hold on this code: already for the input x = {} (under the empty
context) the first expansion does not produce a value at all — because
Processor#expand sets isList to the value itself, the truthy map {} is
unwrapped as a @list, value['@list'] is undefined, and a SyntaxError is
raised — so there is no expansion of x for the equation to relate. -/
theorem claim1_roundtrip_expand_fails_on_empty_map :
    pExpand 32 (.obj []) none (.obj []) = .error .syntaxErr := rfl

/-- C2: expanding the E1 document does not succeed with
{"http://x/name":[{"@value":"Bob"}]}: the core expander raises a
SyntaxError on it (isList = value treats the subject map as a @list whose
undefined value is not an array), and the public expand operation throws a
TypeError before ever invoking the processor or the user callback
(_resolveUrls is called without its callback argument). -/
theorem claim2_e1_expansion_fails :
    pExpand 32 (.obj []) none e1Input = .error .syntaxErr
    ∧ jsonldExpandRun e1Input = ([], some .typeErr) :=
  ⟨by rfl, by rfl⟩

/-- C3: the public compact operation does not pass the compacted document to
its callback: on this non-null, URL-free input it invokes the callback zero
times and a TypeError escapes (jsonld.expand, which runs first, calls
_resolveUrls without its callback argument; the compaction and @context
augmentation steps are never reached — and even cleanup would end with
callback(err), passing no document). -/
theorem claim3_compact_never_delivers_result :
    jsonldCompactRun (.obj [("http://x/name", .arr [.obj [("@value", .str "Bob")]])])
        (.obj [("name", .str "http://x/name")])
      = ([], some .typeErr) := rfl

/-- C4: the public expand operation does not deliver its completion callback
exactly once: for the URL-free input {} the callback is invoked zero times
and a TypeError escapes instead (finished() calls the undefined callback
parameter of _resolveUrls). -/
theorem claim4_expand_callback_delivered_zero_times :
    jsonldExpandRun (.obj []) = ([], some .typeErr) := rfl

/-- C5: term expansion does not succeed on the acyclic context
{"a":"b","b":"http://x/i"}: expanding "a" raises CyclicalContext even though
the chain stabilizes at the absolute IRI, because the stabilization loop of
_expandTerm never updates rval and therefore trips its own visited-set check
on any expansion that needs a second pass. -/
theorem claim5_acyclic_expansion_raises_cyclical :
    expandTermFull 32 (.obj [("a", .str "b"), ("b", .str "http://x/i")]) (.str "a")
      = .error .cyclicalContext := rfl

/-- C6 counterexample: c1 = {"A":"http://x/i","a":"http://x/i"} maps the
term "a" to the IRI I = "http://x/i" and c2 = {"b":"http://x/i"} maps "b"
to the same I, yet merge(c1, c2) still contains "a": the IRI-replacement
scan deletes only the first matching key ("A", alphabetically first in the
sorted clone) and then breaks. -/
theorem claim6_counterexample_second_matching_key_survives :
    pMergeContexts 32 (.obj [("A", .str "http://x/i"), ("a", .str "http://x/i")])
        (.obj [("b", .str "http://x/i")])
      = .ok (.obj [("a", .str "http://x/i"), ("b", .str "http://x/i")])
    ∧ hasKeyJ (.obj [("a", .str "http://x/i"), ("b", .str "http://x/i")]) "a" = true :=
  ⟨by rfl, by rfl⟩

/-- Computation rule for pure in the Except monad. -/
theorem exceptPureEq {ε α : Type} (x : α) : (pure x : Except ε α) = .ok x := rfl

/-- Computation rule for bind on a successful Except value. -/
theorem exceptBindOk {ε α β : Type} (a : α) (f : α → Except ε β) :
    (Except.ok a >>= f : Except ε β) = f a := rfl

/-- A string whose prefix before the first colon is not a context key is a
fixed point of one _expandTerm pass. -/
theorem expandTermBody_fixedPfx (fuel : Nat) (ctx : JVal) (s : String) (idx : Nat)
    (hidx : strColonIdx s = some idx) (hctx : hasKeyJ ctx (s.take idx) = false) :
    expandTermBody (fuel + 1) ctx (.str s) = .ok (.str s) := by
  simp [expandTermBody, hidx, hctx, exceptPureEq]

/-- The stabilization loop returns such a fixed point unchanged. -/
theorem expandTermLoop_fixedPfx (fuel : Nat) (ctx : JVal) (s : String) (idx : Nat)
    (hidx : strColonIdx s = some idx) (hctx : hasKeyJ ctx (s.take idx) = false) :
    expandTermLoop (fuel + 2) ctx [] (.str s) none = .ok (.str s) := by
  simp [expandTermLoop, jsToString, jsStrictEq, exceptPureEq, exceptBindOk,
        expandTermBody_fixedPfx fuel ctx s idx hidx hctx]

/-- Full term expansion of such a fixed point succeeds and is the
identity. -/
theorem expandTermFull_fixedPfx (fuel : Nat) (ctx : JVal) (s : String) (idx : Nat)
    (hidx : strColonIdx s = some idx) (hctx : hasKeyJ ctx (s.take idx) = false) :
    expandTermFull (fuel + 3) ctx (.str s) = .ok (.str s) := by
  simp [expandTermFull, exceptPureEq, exceptBindOk,
        expandTermBody_fixedPfx (fuel + 1) ctx s idx hidx hctx,
        expandTermLoop_fixedPfx fuel ctx s idx hidx hctx]

/-- Reading the @id of a context key bound to a plain non-empty IRI string
(whose scheme prefix is not itself a context key) yields that string. -/
theorem getContextValue_strTerm (fuel : Nat) (ctx : JVal) (k s : String) (idx : Nat)
    (hk : hasKeyJ ctx k = true) (hget : getKey ctx k = .str s)
    (hs : s.isEmpty = false)
    (hidx : strColonIdx s = some idx) (hctx : hasKeyJ ctx (s.take idx) = false) :
    getContextValue (fuel + 4) ctx (.str k) (some "@id") true = .ok (.str s) := by
  simp [getContextValue, jsToString, hk, hget, isObjectJ, isStringJ, hs,
        exceptPureEq, exceptBindOk,
        expandTermFull_fixedPfx fuel ctx s idx hidx hctx]

/-- C6 amended: the IRI-replacement rule removes only the first key of the
sorted clone of c1 whose @id resolves to the incoming IRI; when the term a
is the ONLY key of c1, merging {a: I} with {b: I} does yield {b: I} — b maps
to I and a is absent — for every non-empty IRI I whose scheme prefix (the
part before the first colon) is not itself one of the two terms. -/
theorem claim6_amended_singleton_merge (fuel : Nat) (a b s : String) (idx : Nat)
    (hs : s.isEmpty = false)
    (hidx : strColonIdx s = some idx)
    (hpa : s.take idx ≠ a)
    (hpb : s.take idx ≠ b) :
    pMergeContexts (fuel + 7) (.obj [(a, .str s)]) (.obj [(b, .str s)])
      = .ok (.obj [(b, .str s)]) := by
  have hk2 : hasKeyJ (.obj [(b, .str s)]) b = true := by simp [hasKeyJ, hasField]
  have hg2 : getKey (.obj [(b, .str s)]) b = .str s := by simp [getKey, lookupField]
  have hc2 : hasKeyJ (.obj [(b, .str s)]) (s.take idx) = false := by
    simp [hasKeyJ, hasField, Ne.symm hpb]
  have hk1 : hasKeyJ (.obj [(a, .str s)]) a = true := by simp [hasKeyJ, hasField]
  have hg1 : getKey (.obj [(a, .str s)]) a = .str s := by simp [getKey, lookupField]
  have hc1 : hasKeyJ (.obj [(a, .str s)]) (s.take idx) = false := by
    simp [hasKeyJ, hasField, Ne.symm hpa]
  have h1 := getContextValue_strTerm (fuel + 1) (.obj [(b, .str s)]) b s idx hk2 hg2 hs hidx hc2
  have h2 := getContextValue_strTerm fuel (.obj [(a, .str s)]) a s idx hk1 hg1 hs hidx hc1
  simp [pMergeContexts, isArrayJ, jclone, jcloneFields, sortFields, insertFieldSorted,
        mergeIriReplaceFold, mergeScanDelete, keysOf, fieldsOf, h1, h2,
        jsStrictEq, delField, setField, exceptPureEq, exceptBindOk]

/-- Witness for the amended C6 theorem at a = "a", b = "b",
I = "http://x/i" (the concrete instance E6 of the specification). -/
theorem claim6_amended_witness :
    pMergeContexts 32 (.obj [("a", .str "http://x/i")]) (.obj [("b", .str "http://x/i")])
      = .ok (.obj [("b", .str "http://x/i")]) :=
  claim6_amended_singleton_merge 25 "a" "b" "http://x/i" 4
    (by rfl) (by rfl) (by decide) (by decide)

/-- C7: during compaction the context-defined key "name" is dropped: the
drop test calls jsonld.getContextValue with a single argument, which is
always null, so every non-absolute-IRI key is removed regardless of the
context — compacting {"foo":"y","name":"x"} under {"name":"http://x/name"}
yields the empty map even though "name" is defined in the context. (The
expander's subject loop is not even reachable: every truthy value hits the
isList slip first, see C1/C2.) -/
theorem claim7_compact_drops_context_defined_key :
    pCompact 32 (.obj [("name", .str "http://x/name")]) none
        (.obj [("foo", .str "y"), ("name", .str "x")])
      = .ok (.obj [])
    ∧ hasKeyJ (.obj [("name", .str "http://x/name")]) "name" = true :=
  ⟨by rfl, by rfl⟩

/-- C8: addValue does not skip an already-present value: adding the value 1
to {"p":1} under "p" appends a duplicate, yielding {"p":[1,1]}, because
jsonld.js:344 negates the hasValue test, making the push fire exactly when
the value is already present (a fresh value is silently dropped instead,
and an array-valued property crashes in hasValue on the undeclared global
indexOf). -/
theorem claim8_addValue_appends_duplicate :
    addValueJ (.obj [("p", .num 1)]) "p" (.num 1) false
      = .ok (.obj [("p", .arr [.num 1, .num 1])]) := rfl

/-- C9: when every collected @context URL is malformed, the URL-resolution
pass never completes at all — no ContextUrlError, no success: each
malformed URL only decrements the count and records an error, and the
completion check lives inside the resolver callback, which is never entered.
This holds for every parser and every resolver, since neither is invoked. -/
theorem claim9_all_malformed_urls_no_completion :
    ∀ parse resolver : String → Except JErr JVal,
      resolveUrlsRun parse resolver (.obj [("@context", .str "not-a-url")]) = none :=
  fun _ _ => rfl

/-- C10: getValues on a map subject always returns an array, exactly as the
claim describes it: the stored array itself, a singleton for a truthy
non-array value, and the empty array when the property is absent or its
stored value is falsy (null, false, 0, the empty string — indistinguishable
from an absent property). -/
theorem claim10_getValues_matches_description
    (fs : List (String × JVal)) (p : String) :
    getValuesJ (.obj fs) p = getValuesClaim fs p := by
  simp only [getValuesJ, getValuesClaim, getKey, jsOr]
  cases h : lookupField fs p with
  | none => simp [JVal.truthy, isArrayJ]
  | some v =>
      cases v with
      | null => simp [JVal.truthy, isArrayJ]
      | undefined => simp [JVal.truthy, isArrayJ]
      | bool b => cases b <;> simp [JVal.truthy, isArrayJ]
      | num n =>
          rcases eq_or_ne n 0 with hn | hn <;>
            simp [JVal.truthy, isArrayJ, hn]
      | str s =>
          rcases Bool.eq_false_or_eq_true s.isEmpty with hs | hs <;>
            simp [JVal.truthy, isArrayJ, hs]
      | arr xs => simp [JVal.truthy, isArrayJ]
      | obj gfs => simp [JVal.truthy, isArrayJ]

end JsonLdEs
